import Mathlib

/-!
# Verification of the narrowssh trust-establishment layer

Shallow embedding of `src/config.rs` (the secure file walker
`visit_config_files` and the settings manager `ControlManager`) and of
`src/workspace/mod.rs` (`UserMap::user_by_username`).

Modelling conventions:
* Paths are plain strings with `/` separators and no trailing slashes;
  directory entries are file names within their directory, an entry's path
  is `dir ++ "/" ++ name` (mirroring `read_dir`'s `e.path()`).
* The filesystem is a record of pure functions: `meta` models
  `std::fs::metadata` after symlink resolution (`none` = I/O error),
  `listDir` models `read_dir` plus collecting the entries, `mockOwner`
  models `Workspace::get_mock_owner_uid`, and `content` models
  `std::fs::read_to_string` followed by `toml::from_str::<toml::Table>`
  (`none` = read or parse failure).
* The `FnMut` consumer is a state-threading function
  `σ → String → Option σ` (`none` = the consumer returned `Err`); the
  embedding additionally records the exact sequence of consumer
  invocations in `VisitOut.visited`.
* Machine integers (`u32` uids, permission mode bits) are `Nat` with
  explicit masking; `uid_t` is `u32`, so `parseUid` checks `< 2^32`.
-/

namespace Narrowssh

/-- Result of `std::fs::metadata` (symlinks already resolved). -/
structure FileMeta where
  isDir : Bool
  isFile : Bool
  mode : Nat
  uid : Nat
deriving DecidableEq, Repr

/-- Result of `std::fs::read_dir` together with collecting the entries:
`notFound` is `ErrorKind::NotFound` from `read_dir`; `err` is any other
`read_dir` error or a failure while reading one of the entries; `ok`
carries the entry file names (in the unspecified order the OS returns). -/
inductive DirListing where
  | notFound
  | err
  | ok (entries : List String)
deriving DecidableEq, Repr

/-- One TOML value, as far as control files need: the remaining TOML value
kinds (floats, arrays, datetimes, ...) are collapsed into `other`, which no
recognized field accepts. -/
inductive TomlValue where
  | bool (b : Bool)
  | str (s : String)
  | int (n : Int)
  | table (t : List (String × TomlValue))
  | other

/-- The filesystem and workspace a run observes. -/
structure FS where
  meta : String → Option FileMeta
  listDir : String → DirListing
  mockOwner : String → Option Nat
  content : String → Option (List (String × TomlValue))

/-! ## Path helpers (std::path semantics on file names) -/

/-- The file name of a path: the characters after the last `/`
(`Path::file_name` for ordinary paths). -/
def fileName (p : String) : String :=
  String.mk ((p.data.reverse.takeWhile (fun c => c != '/')).reverse)

/-- Splits a file name at its last `.`: `some (before, after)`, or `none`
when there is no dot. -/
def splitLastDot : List Char → Option (List Char × List Char)
  | [] => none
  | c :: cs =>
    match splitLastDot cs with
    | some (b, a) => some (c :: b, a)
    | none => if c = '.' then some ([], cs) else none

/-- `Path::extension` on a file name: the part after the final dot, except
that a name with no dot, a name whose only dot is leading, and `..` have no
extension (mirrors `rsplit_file_at_dot`). -/
def fileExtension (f : String) : Option String :=
  if f = ".." then none
  else
    match splitLastDot f.data with
    | none => none
    | some ([], _) => none
    | some (b, a) => if b = [] then none else some (String.mk a)

/-- `Path::file_stem` on a file name: the part before the final dot, with
the same special cases as `fileExtension`. -/
def fileStem (f : String) : String :=
  if f = ".." then f
  else
    match splitLastDot f.data with
    | none => f
    | some ([], _) => f
    | some (b, _) => if b = [] then f else String.mk b

/-- Byte-wise (code-point) lexicographic strict order, matching `OsStr`
comparison (UTF-8 byte order agrees with code-point order). -/
def charListLt : List Char → List Char → Bool
  | [], [] => false
  | [], _ :: _ => true
  | _ :: _, [] => false
  | a :: as, b :: bs => if a = b then charListLt as bs else decide (a.val < b.val)

/-- Strict string order used by `PathBuf` comparison of sibling entries. -/
def strLt (a b : String) : Bool := charListLt a.data b.data

/-- Stable insertion of `x` after every element whose key is strictly
smaller (so equal keys keep their original relative order, as Rust's stable
`sort_by_key` does). -/
def insertK (key : String → String) (x : String) : List String → List String
  | [] => [x]
  | y :: ys => if strLt (key y) (key x) then y :: insertK key x ys else x :: y :: ys

/-- Stable insertion sort by `key`, modelling `Vec::sort_by_key`. -/
def sortK (key : String → String) : List String → List String
  | [] => []
  | x :: xs => insertK key x (sortK key xs)

/-- The filtering and ordering of extension-directory entries in
`visit_config_files` (src/config.rs:124-131): if the main file has an
extension, keep only entries with the same extension and sort by
`p.with_extension("")`; otherwise keep everything and sort by path.
Entries are sibling paths in one directory, so `PathBuf` comparison of
`dir/x` vs `dir/y` reduces to byte comparison of the file names `x`, `y`;
the sort keys are therefore the (stemmed) file names. -/
def keptEntries (file : String) (names : List String) : List String :=
  match fileExtension (fileName file) with
  | some ext => sortK fileStem (names.filter (fun n => fileExtension n == some ext))
  | none => sortK (fun n => n) names

/-! ## The secure file walker -/

/-- Effective owner of a file: `ws.get_mock_owner_uid(file).unwrap_or(metadata.uid())`
(src/config.rs:82-83). -/
def effOwner (fs : FS) (p : String) (m : FileMeta) : Nat :=
  (fs.mockOwner p).getD m.uid

/-- `perm_check` closure of `visit_config_files` (src/config.rs:58-91):
stat the file, check its type, check that `mode & 0o777` has no group or
other bits, check the effective owner. `false` means the closure bails. -/
def perm_check (fs : FS) (owner : Nat) (file : String) (expectDir : Bool) : Bool :=
  match fs.meta file with
  | none => false
  | some m =>
    (if expectDir then m.isDir else m.isFile) &&
    ((m.mode &&& 0o777) &&& 0o77 == 0) &&
    (effOwner fs file m == owner)

/-- Outcome of a walk: whether it returned `Ok`, the sequence of consumer
invocations that happened (in order), and the final consumer state. -/
structure VisitOut (σ : Type) where
  ok : Bool
  visited : List String
  state : σ
deriving Repr

/-- The per-entry loop of `visit_config_files` (src/config.rs:142-151):
check each entry, invoke the consumer, abort on the first failure. -/
def visitList {σ : Type} (fs : FS) (owner : Nat)
    (consumer : σ → String → Option σ) : σ → List String → VisitOut σ
  | s, [] => ⟨true, [], s⟩
  | s, e :: rest =>
    if perm_check fs owner e false then
      match consumer s e with
      | some s' =>
        let r := visitList fs owner consumer s' rest
        ⟨r.ok, e :: r.visited, r.state⟩
      | none => ⟨false, [e], s⟩
    else ⟨false, [], s⟩

/-- `visit_config_files` (src/config.rs:46-155): validate and visit the
main file, list `{file}.d` (absence is tolerated, any other listing error
aborts), filter and sort the entries, validate the directory itself, then
visit each kept entry; every failure aborts immediately. -/
def visit_config_files {σ : Type} (fs : FS) (file : String) (owner : Nat)
    (consumer : σ → String → Option σ) (s0 : σ) : VisitOut σ :=
  let dir := file ++ ".d"
  if perm_check fs owner file false then
    match consumer s0 file with
    | some s1 =>
      match fs.listDir dir with
      | .notFound => ⟨true, [file], s1⟩
      | .err => ⟨false, [file], s1⟩
      | .ok names =>
        if perm_check fs owner dir true then
          let r := visitList fs owner consumer s1
            ((keptEntries file names).map (fun n => dir ++ "/" ++ n))
          ⟨r.ok, file :: r.visited, r.state⟩
        else ⟨false, [file], s1⟩
    | none => ⟨false, [file], s0⟩
  else ⟨false, [], s0⟩

/-- Replays a list of consumer invocations from a starting state:
`some` iff every call succeeds. -/
def runConsumer {σ : Type} (c : σ → String → Option σ) : σ → List String → Option σ
  | s, [] => some s
  | s, p :: ps =>
    match c s p with
    | some s' => runConsumer c s' ps
    | none => none

/-! ## Control data model (src/config.rs:157-229) -/

/-- Default value of `config` setting in control. -/
def DEFAULT_USER_CONFIG : String := "~/.narrowssh.conf"

/-- Default value of `authorized_keys` setting in control. -/
def DEFAULT_AUTHORIZED_KEYS : String := "~/.ssh/authorized_keys"

/-- A user's control settings (`Control`). -/
structure Control where
  enable : Bool
  config : String
  authorized_keys : String
deriving DecidableEq, Repr

/-- Copy of `Control` with every field wrapped in an Option
(`IncompleteControl`). -/
structure IncompleteControl where
  enable : Option Bool
  config : Option String
  authorized_keys : Option String
deriving DecidableEq, Repr

/-- `Control::fill_from` (src/config.rs:200-212). -/
def Control.fill_from (c : Control) (source : IncompleteControl) : Control :=
  let c := match source.enable with
    | some enable => { c with enable := enable }
    | none => c
  let c := match source.config with
    | some config => { c with config := config }
    | none => c
  match source.authorized_keys with
  | some authorized_keys => { c with authorized_keys := authorized_keys }
  | none => c

/-- `IncompleteControl::fill_from` (src/config.rs:216-228). -/
def IncompleteControl.fill_from (t : IncompleteControl)
    (source : IncompleteControl) : IncompleteControl :=
  let t := match source.enable with
    | some enable => { t with enable := some enable }
    | none => t
  let t := match source.config with
    | some config => { t with config := some config }
    | none => t
  match source.authorized_keys with
  | some authorized_keys => { t with authorized_keys := some authorized_keys }
  | none => t

/-! ## serde deserialization of `IncompleteControl`

`IncompleteControl` derives `Deserialize` with no serde attributes
(src/config.rs:192-197), so the derived visitor expects a map, reads the
three recognized fields (erroring on a wrong value type or a duplicate
field), and silently skips every unrecognized field name (there is no
`deny_unknown_fields`). -/

/-- Field loop of the derived `Deserialize` impl over a TOML table. -/
def deserFields : List (String × TomlValue) → IncompleteControl →
    Option IncompleteControl
  | [], acc => some acc
  | (k, v) :: rest, acc =>
    if k = "enable" then
      match v with
      | .bool b =>
        if acc.enable.isSome then none
        else deserFields rest { acc with enable := some b }
      | _ => none
    else if k = "config" then
      match v with
      | .str s =>
        if acc.config.isSome then none
        else deserFields rest { acc with config := some s }
      | _ => none
    else if k = "authorized_keys" then
      match v with
      | .str s =>
        if acc.authorized_keys.isSome then none
        else deserFields rest { acc with authorized_keys := some s }
      | _ => none
    else
      deserFields rest acc

/-- `data.try_into::<IncompleteControl>()` (src/config.rs:276): a non-table
value is an invalid-type error. -/
def deserIncompleteControl (v : TomlValue) : Option IncompleteControl :=
  match v with
  | .table t => deserFields t ⟨none, none, none⟩
  | _ => none

/-! ## User directory (src/workspace/mod.rs) -/

/-- A system user: uid and name. -/
structure User where
  uid : Nat
  name : String
deriving DecidableEq, Repr

/-- The snapshot of system users, as the value iteration order of
`UserMap.data` presents them. -/
abbrev UserMap := List User

/-- Outcome of `UserMap::user_by_username`: `ambiguous` is the
"Username is not unique" error. -/
inductive UserLookup where
  | ambiguous
  | notFound
  | found (u : User)
deriving DecidableEq, Repr

/-- `UserMap::user_by_username` (src/workspace/mod.rs:40-56): find the
first user with the name; if any later user has the same name, error. -/
def UserMap.user_by_username : UserMap → String → UserLookup
  | [], _ => .notFound
  | u :: rest, name =>
    if u.name = name then
      if rest.any (fun v => v.name == name) then .ambiguous else .found u
    else UserMap.user_by_username rest name

/-! ## The settings manager (src/config.rs:231-346) -/

/-- `ControlManager`: per-uid overrides (the `HashMap` is modelled as an
association list in insertion order) plus the fallback. -/
structure ControlManager where
  users : List (Nat × IncompleteControl)
  fallback : Control
deriving DecidableEq, Repr

/-- `HashMap::get`. -/
def lookupUser : List (Nat × IncompleteControl) → Nat → Option IncompleteControl
  | [], _ => none
  | (k, v) :: rest, uid => if k = uid then some v else lookupUser rest uid

/-- `users.entry(uid).and_modify(|ic| ic.fill_from(&data)).or_insert(data)`
(src/config.rs:294-298). -/
def updateUsers : List (Nat × IncompleteControl) → Nat → IncompleteControl →
    List (Nat × IncompleteControl)
  | [], uid, d => [(uid, d)]
  | (k, v) :: rest, uid, d =>
    if k = uid then (k, v.fill_from d) :: rest
    else (k, v) :: updateUsers rest uid d

/-- `user.parse::<uid_t>()`: Rust `u32::from_str` — an optional leading
`+`, then one or more decimal digits, value below `2^32`; anything else
(including overflow) is a parse error. -/
def parseUid (s : String) : Option Nat :=
  let cs := match s.data with
    | '+' :: rest => rest
    | cs => cs
  if cs.isEmpty then none
  else if cs.all (fun c => c.isDigit) then
    let n := cs.foldl (fun n c => n * 10 + (c.toNat - 48)) 0
    if n < 2 ^ 32 then some n else none
  else none

/-- `validate_file_path` (src/config.rs:315-327): a present path must be
non-empty and begin with `/` or `~`. -/
def validate_file_path (path : Option String) : Bool :=
  match path with
  | none => true
  | some p =>
    match p.data.head? with
    | none => false
    | some '/' => true
    | some '~' => true
    | some _ => false

/-- `ControlManager::validate` (src/config.rs:314-333). -/
def ControlManager.validate (data : IncompleteControl) : Bool :=
  validate_file_path data.config && validate_file_path data.authorized_keys

/-- Body of the `for (user, data) in content` loop in `ControlManager::load`
(src/config.rs:275-299): deserialize, validate, then either merge into the
fallback (`*`), or resolve the key to a uid (numeric parse first, then
username lookup) and merge into that uid's accumulated override. -/
def processPair (users : UserMap) (st : ControlManager)
    (user : String) (data : TomlValue) : Option ControlManager :=
  match deserIncompleteControl data with
  | none => none
  | some d =>
    if ControlManager.validate d then
      if user = "*" then
        some { st with fallback := st.fallback.fill_from d }
      else
        match parseUid user with
        | some uid => some { st with users := updateUsers st.users uid d }
        | none =>
          match UserMap.user_by_username users user with
          | .ambiguous => none
          | .notFound => none
          | .found u => some { st with users := updateUsers st.users u.uid d }
    else none

/-- The loop of `process` over the parsed table, in table order. -/
def processTable (users : UserMap) : ControlManager →
    List (String × TomlValue) → Option ControlManager
  | st, [] => some st
  | st, (user, data) :: rest =>
    match processPair users st user data with
    | some st' => processTable users st' rest
    | none => none

/-- The `process` consumer of `ControlManager::load` (src/config.rs:269-302):
read and parse the file, then fold the table. -/
def processFile (fs : FS) (users : UserMap) (st : ControlManager)
    (file : String) : Option ControlManager :=
  match fs.content file with
  | none => none
  | some tbl => processTable users st tbl

/-- `ControlManager::load` (src/config.rs:255-310): start from the default
fallback and no overrides, then drive `visit_config_files` with owner 0 and
the `process` consumer. `none` = the load returned `Err`. -/
def ControlManager.load (fs : FS) (users : UserMap) (file : String) :
    Option ControlManager :=
  let init : ControlManager :=
    { users := []
      fallback :=
        { enable := false
          config := DEFAULT_USER_CONFIG
          authorized_keys := DEFAULT_AUTHORIZED_KEYS } }
  let r := visit_config_files fs file 0 (processFile fs users) init
  if r.ok then some r.state else none

/-- `ControlManager::get_user_control` (src/config.rs:337-345): clone the
fallback, fill from the recorded override if any. -/
def ControlManager.get_user_control (cm : ControlManager) (uid : Nat) : Control :=
  match lookupUser cm.users uid with
  | some overrides => cm.fallback.fill_from overrides
  | none => cm.fallback

/-! ## Concrete filesystems used as inputs -/

/-- Is the first list a prefix of the second (used to give every file
inside the extension directory the same metadata)? -/
def charListIsPrefixOf : List Char → List Char → Bool
  | [], _ => true
  | _ :: _, [] => false
  | a :: as, b :: bs => a == b && charListIsPrefixOf as bs

/-- A filesystem whose main file (mode `mode`) and extension directory
contents are all owned by uid 0; the extension directory (mode `0o700`)
lists `ld`, every file inside it has mode `0o600`, and file contents parse
as `content`. -/
def rootFS (main : String) (mode : Nat) (ld : DirListing)
    (content : String → Option (List (String × TomlValue))) : FS :=
  { meta := fun p =>
      if p = main then some ⟨false, true, mode, 0⟩
      else if p = main ++ ".d" then some ⟨true, false, 0o700, 0⟩
      else if charListIsPrefixOf (main ++ ".d/").data p.data then
        some ⟨false, true, 0o600, 0⟩
      else none
    listDir := fun p => if p = main ++ ".d" then ld else .notFound
    mockOwner := fun _ => none
    content := content }

/-- The literal extension-directory entry names of the ordering scenario. -/
def namesC3 : List String :=
  ["02.a", "02-a", "10", "02.conf", "weird", "02", "12", "02~a", "01"]

/-! ## Helper lemmas -/

/-- A file whose metadata is readable but whose low-9-bit mode has a group
or other bit set, or whose effective owner is not `owner`. -/
def badFile (fs : FS) (owner : Nat) (p : String) : Prop :=
  ∃ m, fs.meta p = some m ∧
    ((m.mode &&& 0o777) &&& 0o77 ≠ 0 ∨ effOwner fs p m ≠ owner)

theorem perm_check_false_of_bad {fs : FS} {owner : Nat} {p : String}
    (h : badFile fs owner p) (ed : Bool) :
    perm_check fs owner p ed = false := by
  obtain ⟨m, hm, hbad⟩ := h
  simp only [perm_check, hm]
  rcases hbad with h1 | h1
  · have hb : ((m.mode &&& 0o777) &&& 0o77 == 0) = false := by
      simpa using h1
    simp [hb]
  · have hb : (effOwner fs p m == owner) = false := by
      simpa using h1
    simp [hb]

theorem visitList_bad {σ : Type} (fs : FS) (owner : Nat)
    (c : σ → String → Option σ) :
    ∀ (l : List String) (s : σ) (e : String), e ∈ l →
      perm_check fs owner e false = false →
      (visitList fs owner c s l).ok = false := by
  intro l
  induction l with
  | nil => intro s e he _; cases he
  | cons x xs ih =>
    intro s e he hbad
    simp only [visitList]
    by_cases hx : perm_check fs owner x false = true
    · rw [if_pos hx]
      cases hc : c s x with
      | none => rfl
      | some s' =>
        have hexs : e ∈ xs := by
          rcases List.mem_cons.mp he with rfl | h
          · rw [hbad] at hx; cases hx
          · exact h
        simpa using ih s' e hexs hbad
    · rw [if_neg hx]

theorem visit_fails_of_bad {σ : Type} (fs : FS) (file : String) (owner : Nat)
    (c : σ → String → Option σ) (s0 : σ)
    (hbad : badFile fs owner file
      ∨ ∃ names, fs.listDir (file ++ ".d") = .ok names ∧
          (badFile fs owner (file ++ ".d")
           ∨ ∃ n ∈ keptEntries file names,
               badFile fs owner (file ++ ".d" ++ "/" ++ n))) :
    (visit_config_files fs file owner c s0).ok = false := by
  simp only [visit_config_files]
  by_cases h1 : perm_check fs owner file false = true
  · rcases hbad with hb | ⟨names, hld, hrest⟩
    · rw [perm_check_false_of_bad hb false] at h1; cases h1
    · rw [if_pos h1]
      cases hc : c s0 file with
      | none => rfl
      | some s1 =>
        rw [hld]
        dsimp only
        by_cases h2 : perm_check fs owner (file ++ ".d") true = true
        · rw [if_pos h2]
          rcases hrest with hbd | ⟨n, hn, hbadn⟩
          · rw [perm_check_false_of_bad hbd true] at h2; cases h2
          · exact visitList_bad fs owner c _ s1 _
              (List.mem_map_of_mem _ hn)
              (perm_check_false_of_bad hbadn false)
        · rw [if_neg h2]
  · rw [if_neg h1]

/-! ## Claims -/

/-- C1: For every file that `visit_config_files` validates (the main file,
the extension directory, and each kept extension entry), if any group or
other permission bit is set in its mode masked to the low 9 bits, or if its
effective owner uid differs from the required owner argument, then
`visit_config_files` (and hence `ControlManager::load`, which requires
owner 0) returns an error; the permission failure holds regardless of owner
correctness, and the owner failure holds regardless of permission bits
(`badFile` is the disjunction of the two defects). -/
theorem visit_bad_perm_or_owner_fails {σ : Type} (fs : FS) (file : String)
    (owner : Nat) (c : σ → String → Option σ) (s0 : σ) (users : UserMap)
    (hbad : badFile fs owner file
      ∨ ∃ names, fs.listDir (file ++ ".d") = .ok names ∧
          (badFile fs owner (file ++ ".d")
           ∨ ∃ n ∈ keptEntries file names,
               badFile fs owner (file ++ ".d" ++ "/" ++ n))) :
    (visit_config_files fs file owner c s0).ok = false ∧
    (owner = 0 → ControlManager.load fs users file = none) := by
  refine ⟨visit_fails_of_bad fs file owner c s0 hbad, fun h0 => ?_⟩
  subst h0
  have h := visit_fails_of_bad fs file 0 (processFile fs users)
    ⟨[], ⟨false, DEFAULT_USER_CONFIG, DEFAULT_AUTHORIZED_KEYS⟩⟩ hbad
  simp [ControlManager.load, h]

/-- Witness for C1: a root-owned main file with mode `0o644` (group/other
bits set) makes both the walk and the load fail. -/
theorem visit_bad_perm_or_owner_fails_witness :
    (visit_config_files (rootFS "etc/control.toml" 0o644 .notFound
        (fun _ => none)) "etc/control.toml" 0
        (fun (s : Unit) _ => some s) ()).ok = false ∧
    ControlManager.load (rootFS "etc/control.toml" 0o644 .notFound
        (fun _ => none)) [] "etc/control.toml" = none := by
  have h := visit_bad_perm_or_owner_fails
    (rootFS "etc/control.toml" 0o644 .notFound (fun _ => none))
    "etc/control.toml" 0 (fun (s : Unit) _ => some s) () []
    (Or.inl ⟨⟨false, true, 0o644, 0⟩, rfl, Or.inl (by decide)⟩)
  exact ⟨h.1, h.2 rfl⟩

theorem runConsumer_append {σ : Type} (c : σ → String → Option σ) :
    ∀ (l₁ l₂ : List String) (s : σ),
      runConsumer c s (l₁ ++ l₂) =
        (runConsumer c s l₁).bind (fun s' => runConsumer c s' l₂) := by
  intro l₁
  induction l₁ with
  | nil => intro l₂ s; rfl
  | cons p ps ih =>
    intro l₂ s
    simp only [List.cons_append, runConsumer]
    cases c s p with
    | none => rfl
    | some s' => simpa using ih l₂ s'

/-- Every consumer invocation a `visitList` run makes succeeds, except that
the very last one may be the failing call. -/
theorem visitList_trace {σ : Type} (fs : FS) (owner : Nat)
    (c : σ → String → Option σ) :
    ∀ (l : List String) (s : σ),
      (∃ s', runConsumer c s (visitList fs owner c s l).visited = some s')
      ∨ ∃ vs p s', (visitList fs owner c s l).visited = vs ++ [p] ∧
          runConsumer c s vs = some s' ∧ c s' p = none := by
  intro l
  induction l with
  | nil => intro s; exact Or.inl ⟨s, rfl⟩
  | cons e rest ih =>
    intro s
    simp only [visitList]
    by_cases he : perm_check fs owner e false = true
    · rw [if_pos he]
      cases hc : c s e with
      | none =>
        exact Or.inr ⟨[], e, s, rfl, rfl, hc⟩
      | some s' =>
        dsimp only
        rcases ih s' with ⟨s'', h⟩ | ⟨vs, p, st, hvis, hrun, hfail⟩
        · refine Or.inl ⟨s'', ?_⟩
          simp only [runConsumer, hc]
          exact h
        · refine Or.inr ⟨e :: vs, p, st, ?_, ?_, hfail⟩
          · rw [hvis]; rfl
          · simp only [runConsumer, hc]
            exact hrun
    · rw [if_neg he]
      exact Or.inl ⟨s, rfl⟩

/-- Trace discipline of the whole walk: at most the last recorded consumer
invocation failed. -/
theorem visit_trace {σ : Type} (fs : FS) (file : String) (owner : Nat)
    (c : σ → String → Option σ) (s0 : σ) :
    (∃ s', runConsumer c s0
        (visit_config_files fs file owner c s0).visited = some s')
    ∨ ∃ vs p s',
        (visit_config_files fs file owner c s0).visited = vs ++ [p] ∧
        runConsumer c s0 vs = some s' ∧ c s' p = none := by
  simp only [visit_config_files]
  by_cases h1 : perm_check fs owner file false = true
  · rw [if_pos h1]
    cases hc : c s0 file with
    | none => exact Or.inr ⟨[], file, s0, rfl, rfl, hc⟩
    | some s1 =>
      dsimp only
      cases hld : fs.listDir (file ++ ".d") with
      | notFound =>
        refine Or.inl ⟨s1, ?_⟩
        simp only [runConsumer, hc]
      | err =>
        refine Or.inl ⟨s1, ?_⟩
        simp only [runConsumer, hc]
      | ok names =>
        dsimp only
        by_cases h2 : perm_check fs owner (file ++ ".d") true = true
        · rw [if_pos h2]
          dsimp only
          rcases visitList_trace fs owner c
              ((keptEntries file names).map (fun n => file ++ ".d" ++ "/" ++ n))
              s1 with ⟨s'', h⟩ | ⟨vs, p, st, hvis, hrun, hfail⟩
          · refine Or.inl ⟨s'', ?_⟩
            simp only [runConsumer, hc]
            exact h
          · refine Or.inr ⟨file :: vs, p, st, ?_, ?_, hfail⟩
            · rw [hvis]; rfl
            · simp only [runConsumer, hc]
              exact hrun
        · rw [if_neg h2]
          refine Or.inl ⟨s1, ?_⟩
          simp only [runConsumer, hc]
  · rw [if_neg h1]
    exact Or.inl ⟨s0, rfl⟩

theorem runConsumer_dropLast_isSome {σ : Type} (c : σ → String → Option σ)
    {s : σ} {l : List String} {t : σ} (h : runConsumer c s l = some t) :
    (runConsumer c s l.dropLast).isSome = true := by
  rcases eq_or_ne l [] with rfl | hne
  · simp [runConsumer]
  · have hdecomp := List.dropLast_append_getLast hne
    rw [← hdecomp] at h
    rw [runConsumer_append] at h
    cases hr : runConsumer c s l.dropLast with
    | none => rw [hr] at h; cases h
    | some s' => rfl

/-- C4: `visit_config_files` is fail-fast but not all-or-nothing with
respect to consumer side effects: when the walk returns an error, every
recorded consumer invocation except possibly the last succeeded (so no
invocation ever follows the first failure), yet for a concrete input (a
valid main file whose extension directory listing fails) the consumer has
already been invoked on the main file before the failure aborts the walk. -/
theorem visit_fail_fast_partial_effects {σ : Type} (fs : FS) (file : String)
    (owner : Nat) (c : σ → String → Option σ) (s0 : σ)
    (_hfail : (visit_config_files fs file owner c s0).ok = false) :
    (runConsumer c s0
        (visit_config_files fs file owner c s0).visited.dropLast).isSome
      = true ∧
    ((visit_config_files (rootFS "etc/control.toml" 0o600 .err (fun _ => none))
        "etc/control.toml" 0 (fun (s : Unit) _ => some s) ()).ok = false ∧
      (visit_config_files (rootFS "etc/control.toml" 0o600 .err (fun _ => none))
        "etc/control.toml" 0 (fun (s : Unit) _ => some s) ()).visited
        = ["etc/control.toml"]) := by
  refine ⟨?_, by decide, by decide⟩
  rcases visit_trace fs file owner c s0 with ⟨s', h⟩ | ⟨vs, p, st, hvis, hrun, _⟩
  · exact runConsumer_dropLast_isSome c h
  · rw [hvis, List.dropLast_concat, hrun]
    rfl

/-- Witness for C4 at a concrete failing input: the walk fails, and every
consumer invocation before the last one succeeded. -/
theorem visit_fail_fast_partial_effects_witness :
    (runConsumer (fun (s : Unit) _ => some s) ()
        (visit_config_files (rootFS "etc/control.toml" 0o600 .err (fun _ => none))
          "etc/control.toml" 0 (fun (s : Unit) _ => some s) ()).visited.dropLast).isSome
      = true := by
  exact (visit_fail_fast_partial_effects
    (rootFS "etc/control.toml" 0o600 .err (fun _ => none)) "etc/control.toml" 0
    (fun (s : Unit) _ => some s) () (by decide)).1

/-- C5: If the main file passes validation and its consumer succeeds, and
the extension directory (main path with literal suffix `.d`) does not
exist, `visit_config_files` succeeds having invoked the consumer exactly
once, on the main file only; a directory-listing failure for any other
reason makes the walk fail instead. -/
theorem visit_missing_dir_main_only {σ : Type} (fs : FS) (file : String)
    (owner : Nat) (c : σ → String → Option σ) (s0 s1 : σ)
    (hperm : perm_check fs owner file false = true)
    (hc : c s0 file = some s1) :
    (fs.listDir (file ++ ".d") = .notFound →
      (visit_config_files fs file owner c s0).ok = true ∧
      (visit_config_files fs file owner c s0).visited = [file]) ∧
    (fs.listDir (file ++ ".d") = .err →
      (visit_config_files fs file owner c s0).ok = false ∧
      (visit_config_files fs file owner c s0).visited = [file]) := by
  constructor
  · intro hld
    simp [visit_config_files, if_pos hperm, hc, hld]
  · intro hld
    simp [visit_config_files, if_pos hperm, hc, hld]

/-- Witness for C5: a valid root-owned main file with no `.d` directory is
walked successfully, visiting exactly the main file. -/
theorem visit_missing_dir_main_only_witness :
    (visit_config_files (rootFS "etc/control.toml" 0o600 .notFound (fun _ => none))
      "etc/control.toml" 0 (fun (s : Unit) _ => some s) ()).ok = true ∧
    (visit_config_files (rootFS "etc/control.toml" 0o600 .notFound (fun _ => none))
      "etc/control.toml" 0 (fun (s : Unit) _ => some s) ()).visited
      = ["etc/control.toml"] := by
  exact (visit_missing_dir_main_only
    (rootFS "etc/control.toml" 0o600 .notFound (fun _ => none))
    "etc/control.toml" 0 (fun (s : Unit) _ => some s) () ()
    (by decide) rfl).1 (by decide)

theorem visit_unfold_entries {σ : Type} (fs : FS) (file : String) (owner : Nat)
    (c : σ → String → Option σ) (s0 s1 : σ) (names : List String)
    (h1 : perm_check fs owner file false = true)
    (hc : c s0 file = some s1)
    (hld : fs.listDir (file ++ ".d") = .ok names)
    (h2 : perm_check fs owner (file ++ ".d") true = true) :
    visit_config_files fs file owner c s0 =
      ⟨(visitList fs owner c s1 ((keptEntries file names).map
          (fun n => file ++ ".d" ++ "/" ++ n))).ok,
        file :: (visitList fs owner c s1 ((keptEntries file names).map
          (fun n => file ++ ".d" ++ "/" ++ n))).visited,
        (visitList fs owner c s1 ((keptEntries file names).map
          (fun n => file ++ ".d" ++ "/" ++ n))).state⟩ := by
  simp only [visit_config_files, if_pos h1, hc, hld, if_pos h2]

/-- C3 counterexample: with the extension-directory entries literally named
`02.a, 02-a, 10, 02.conf, weird, 02, 12, 02~a, 01` and a main file with
extension `.conf`, the consumer is invoked on the main file and then on
`02.conf` only — not in the claimed order `01, 02, 02-a, 02.a, 02.conf,
02~a, 10, 12` (those entries lack the `.conf` extension and are filtered
out before any visit). -/
theorem literal_names_order_counterexample :
    (visit_config_files (rootFS "etc/main.conf" 0o600 (.ok namesC3)
        (fun _ => none)) "etc/main.conf" 0
        (fun (s : Unit) _ => some s) ()).visited
      = ["etc/main.conf", "etc/main.conf.d/02.conf"] ∧
    (visit_config_files (rootFS "etc/main.conf" 0o600 (.ok namesC3)
        (fun _ => none)) "etc/main.conf" 0
        (fun (s : Unit) _ => some s) ()).visited
      ≠ ["etc/main.conf", "etc/main.conf.d/01", "etc/main.conf.d/02",
         "etc/main.conf.d/02-a", "etc/main.conf.d/02.a",
         "etc/main.conf.d/02.conf", "etc/main.conf.d/02~a",
         "etc/main.conf.d/10", "etc/main.conf.d/12"] := by
  decide

/-- C3 (amended): with entries literally named `02.a, 02-a, 10, 02.conf,
weird, 02, 12, 02~a, 01` (in any listing order) in the extension directory
of a main file with extension `.conf`, `visit_config_files` invokes the
consumer on the main file and then on the single entry `02.conf`; the
entries without the `.conf` extension — `weird` included — are never
visited. -/
theorem literal_names_only_conf_visited {σ : Type} (names : List String)
    (hperm : names.Perm namesC3) (c : σ → String → Option σ) (s0 s1 s2 : σ)
    (h0 : c s0 "etc/main.conf" = some s1)
    (h1 : c s1 "etc/main.conf.d/02.conf" = some s2) :
    (visit_config_files (rootFS "etc/main.conf" 0o600 (.ok names)
        (fun _ => none)) "etc/main.conf" 0 c s0).ok = true ∧
    (visit_config_files (rootFS "etc/main.conf" 0o600 (.ok names)
        (fun _ => none)) "etc/main.conf" 0 c s0).visited
      = ["etc/main.conf", "etc/main.conf.d/02.conf"] := by
  have hkept : keptEntries "etc/main.conf" names = ["02.conf"] := by
    have hfilter : names.filter (fun n => fileExtension n == some "conf")
        = ["02.conf"] := by
      have hp := hperm.filter (fun n => fileExtension n == some "conf")
      have hlit : namesC3.filter (fun n => fileExtension n == some "conf")
          = ["02.conf"] := by decide
      rw [hlit] at hp
      exact List.perm_singleton.mp hp
    have hext : fileExtension (fileName "etc/main.conf") = some "conf" := by
      decide
    simp only [keptEntries, hext]
    rw [hfilter]
    rfl
  have hvu := visit_unfold_entries
    (rootFS "etc/main.conf" 0o600 (.ok names) (fun _ => none))
    "etc/main.conf" 0 c s0 s1 names rfl h0 rfl rfl
  rw [hvu, hkept]
  have hpath : ("etc/main.conf" ++ ".d" ++ "/" ++ "02.conf" : String)
      = "etc/main.conf.d/02.conf" := rfl
  simp only [List.map, hpath]
  have hpc : perm_check (rootFS "etc/main.conf" 0o600 (.ok names)
      (fun _ => none)) 0 "etc/main.conf.d/02.conf" false = true := rfl
  simp only [visitList, if_pos hpc, h1]
  exact ⟨trivial, trivial⟩


/-- Witness for the amended C3 at the literal listing order. -/
theorem literal_names_only_conf_visited_witness :
    (visit_config_files (rootFS "etc/main.conf" 0o600 (.ok namesC3)
        (fun _ => none)) "etc/main.conf" 0
        (fun (s : Unit) _ => some s) ()).ok = true ∧
    (visit_config_files (rootFS "etc/main.conf" 0o600 (.ok namesC3)
        (fun _ => none)) "etc/main.conf" 0
        (fun (s : Unit) _ => some s) ()).visited
      = ["etc/main.conf", "etc/main.conf.d/02.conf"] := by
  exact literal_names_only_conf_visited namesC3 (List.Perm.refl _)
    (fun (s : Unit) _ => some s) () () () rfl rfl

theorem control_fill_from_fields (c : Control) (src : IncompleteControl) :
    (c.fill_from src).enable = src.enable.getD c.enable ∧
    (c.fill_from src).config = src.config.getD c.config ∧
    (c.fill_from src).authorized_keys
      = src.authorized_keys.getD c.authorized_keys := by
  rcases src with ⟨e, cf, ak⟩
  cases e <;> cases cf <;> cases ak <;> exact ⟨rfl, rfl, rfl⟩

theorem incomplete_fill_from_fields (t src : IncompleteControl) :
    (t.fill_from src).enable = src.enable.or t.enable ∧
    (t.fill_from src).config = src.config.or t.config ∧
    (t.fill_from src).authorized_keys
      = src.authorized_keys.or t.authorized_keys := by
  rcases src with ⟨e, cf, ak⟩
  cases e <;> cases cf <;> cases ak <;> exact ⟨rfl, rfl, rfl⟩

/-- C6: The merge of a Partial Override into a `Control` or into another
`IncompleteControl` is strictly field-wise: a field's value changes only
when the merged-in entry explicitly sets it (`Control` fields become
`src.field.getD old`, optional fields become `src.field.or old`), a set
optional field never regresses to unset, and merging an entry setting only
`enable = false` and then one setting only `config = "/x"` into the default
fallback yields `enable = false`, `config = "/x"` with the remaining field
untouched. -/
theorem merge_is_field_wise :
    (∀ (c : Control) (src : IncompleteControl),
      (c.fill_from src).enable = src.enable.getD c.enable ∧
      (c.fill_from src).config = src.config.getD c.config ∧
      (c.fill_from src).authorized_keys
        = src.authorized_keys.getD c.authorized_keys) ∧
    (∀ (t src : IncompleteControl),
      (t.fill_from src).enable = src.enable.or t.enable ∧
      (t.fill_from src).config = src.config.or t.config ∧
      (t.fill_from src).authorized_keys
        = src.authorized_keys.or t.authorized_keys) ∧
    (∀ (t src : IncompleteControl),
      (t.enable.isSome = true → (t.fill_from src).enable.isSome = true) ∧
      (t.config.isSome = true → (t.fill_from src).config.isSome = true) ∧
      (t.authorized_keys.isSome = true →
        (t.fill_from src).authorized_keys.isSome = true)) ∧
    ((Control.fill_from
        (Control.fill_from
          ⟨false, DEFAULT_USER_CONFIG, DEFAULT_AUTHORIZED_KEYS⟩
          ⟨some false, none, none⟩)
        ⟨none, some "/x", none⟩)
      = ⟨false, "/x", DEFAULT_AUTHORIZED_KEYS⟩) ∧
    (ControlManager.load
        (rootFS "etc/control.toml" 0o600 (.ok ["10.toml"])
          (fun p =>
            if p = "etc/control.toml" then
              some [("*", .table [("enable", .bool false)])]
            else if p = "etc/control.toml.d/10.toml" then
              some [("*", .table [("config", .str "/x")])]
            else none))
        [] "etc/control.toml"
      = some ⟨[], ⟨false, "/x", DEFAULT_AUTHORIZED_KEYS⟩⟩) := by
  refine ⟨control_fill_from_fields, incomplete_fill_from_fields,
    ?_, by decide, by decide⟩
  intro t src
  obtain ⟨he, hc, ha⟩ := incomplete_fill_from_fields t src
  refine ⟨fun h => ?_, fun h => ?_, fun h => ?_⟩
  · rw [he]; cases hs : src.enable <;> simp_all [Option.or]
  · rw [hc]; cases hs : src.config <;> simp_all [Option.or]
  · rw [ha]; cases hs : src.authorized_keys <;> simp_all [Option.or]

/-- Witness for C6: merging `⟨some true, none, none⟩` into an override that
already sets `config` keeps `config` set. -/
theorem merge_is_field_wise_witness :
    (IncompleteControl.fill_from ⟨none, some "/a", none⟩
      ⟨some true, none, none⟩).config.isSome = true := by
  exact (merge_is_field_wise.2.2.1 ⟨none, some "/a", none⟩
    ⟨some true, none, none⟩).2.1 (by decide)

/-- C7: For every uid, `get_user_control uid` equals the manager's fallback
with the recorded override for that uid (if any) applied field-by-field on
top; the function is pure state-free Lean code, so it cannot mutate the
manager, and repeated calls with the same uid return this same value. -/
theorem get_user_control_characterization (cm : ControlManager) (uid : Nat) :
    cm.get_user_control uid =
      { enable := ((lookupUser cm.users uid).bind
            (fun ov => ov.enable)).getD cm.fallback.enable
        config := ((lookupUser cm.users uid).bind
            (fun ov => ov.config)).getD cm.fallback.config
        authorized_keys := ((lookupUser cm.users uid).bind
            (fun ov => ov.authorized_keys)).getD cm.fallback.authorized_keys } := by
  unfold ControlManager.get_user_control
  cases h : lookupUser cm.users uid with
  | none => rfl
  | some ov =>
    dsimp only [Option.bind]
    obtain ⟨he, hc, ha⟩ := control_fill_from_fields cm.fallback ov
    rcases hres : cm.fallback.fill_from ov with ⟨e, c, a⟩
    rw [hres] at he hc ha
    simp only at he hc ha
    rw [he, hc, ha]

theorem validate_file_path_some (p : String) :
    validate_file_path (some p) =
      match p.data.head? with
      | none => false
      | some ch => (ch == '/' || ch == '~') := by
  dsimp only [validate_file_path]
  split
  · rename_i heq
    rw [heq]
  · rename_i heq
    rw [heq]
    rfl
  · rename_i heq
    rw [heq]
    rfl
  · rename_i c hne1 hne2 heq
    rw [heq]
    have e1 : (c == '/') = false := by
      cases hc : c == '/'
      · rfl
      · exact absurd (beq_iff_eq.mp hc) hne1
    have e2 : (c == '~') = false := by
      cases hc : c == '~'
      · rfl
      · exact absurd (beq_iff_eq.mp hc) hne2
    simp [e1, e2]

theorem user_by_username_notFound (users : UserMap) (n : String)
    (h : ∀ u ∈ users, u.name ≠ n) :
    UserMap.user_by_username users n = .notFound := by
  induction users with
  | nil => rfl
  | cons u rest ih =>
    simp only [UserMap.user_by_username]
    rw [if_neg (h u (List.mem_cons_self u rest))]
    exact ih (fun v hv => h v (List.mem_cons_of_mem u hv))

theorem user_by_username_ambiguous (users : UserMap) (n : String)
    (h : 2 ≤ users.countP (fun u => u.name == n)) :
    UserMap.user_by_username users n = .ambiguous := by
  induction users with
  | nil => simp [List.countP, List.countP.go] at h
  | cons u rest ih =>
    simp only [UserMap.user_by_username]
    by_cases hu : u.name = n
    · rw [if_pos hu]
      have hcount : 0 < rest.countP (fun v => v.name == n) := by
        rw [List.countP_cons] at h
        simp only [hu, beq_self_eq_true, if_pos] at h
        omega
      have hany : rest.any (fun v => v.name == n) = true := by
        rw [List.any_eq_true]
        obtain ⟨v, hv, hvn⟩ := List.countP_pos_iff.mp hcount
        exact ⟨v, hv, hvn⟩
      rw [hany]
      rfl
    · rw [if_neg hu]
      apply ih
      rw [List.countP_cons] at h
      have hfalse : (u.name == n) = false := by
        cases hc : u.name == n
        · rfl
        · exact absurd (beq_iff_eq.mp hc) hu
      rw [hfalse] at h
      simpa using h

/-- C8: A present `config` or `authorized_keys` value that is empty or does
not begin with `/` or `~` fails `ControlManager::validate`; a failed
validation makes the per-entry processing (and hence `load`) abort; values
beginning with `/` or `~` pass; and a concrete load with
`config = "relative/path"` fails end-to-end. -/
theorem path_validation_aborts_load :
    (∀ (d : IncompleteControl) (p : String),
      (d.config = some p ∨ d.authorized_keys = some p) →
      (∀ ch, p.data.head? = some ch → ch ≠ '/' ∧ ch ≠ '~') →
      ControlManager.validate d = false) ∧
    (∀ (users : UserMap) (st : ControlManager) (user : String)
        (v : TomlValue) (d : IncompleteControl),
      deserIncompleteControl v = some d →
      ControlManager.validate d = false →
      processPair users st user v = none) ∧
    ControlManager.validate ⟨none, some "/abs", some "~/rel"⟩ = true ∧
    ControlManager.load
      (rootFS "etc/control.toml" 0o600 .notFound
        (fun _ => some [("*", .table [("config", .str "relative/path")])]))
      [] "etc/control.toml" = none := by
  refine ⟨?_, ?_, by decide, by decide⟩
  · intro d p hmem hbad
    have hfalse : validate_file_path (some p) = false := by
      rw [validate_file_path_some]
      cases hh : p.data.head? with
      | none => rfl
      | some ch =>
        obtain ⟨h1, h2⟩ := hbad ch hh
        have e1 : (ch == '/') = false := by
          cases hc : ch == '/'
          · rfl
          · exact absurd (beq_iff_eq.mp hc) h1
        have e2 : (ch == '~') = false := by
          cases hc : ch == '~'
          · rfl
          · exact absurd (beq_iff_eq.mp hc) h2
        simp [e1, e2]
    unfold ControlManager.validate
    rcases hmem with h | h
    · rw [h, hfalse]
      rfl
    · rw [h, hfalse]
      simp
  · intro users st user v d hdeser hval
    unfold processPair
    rw [hdeser]
    simp [hval]

/-- Witness for C8: a lone `config = "relative/path"` entry fails
validation. -/
theorem path_validation_aborts_load_witness :
    ControlManager.validate ⟨none, some "relative/path", none⟩ = false := by
  refine path_validation_aborts_load.1 ⟨none, some "relative/path", none⟩
    "relative/path" (Or.inl rfl) ?_
  intro ch h
  have h' : "relative/path".data.head? = some 'r' := by decide
  rw [h] at h'
  injection h' with hch
  subst hch
  exact ⟨by decide, by decide⟩

/-- C9: For a non-wildcard key that parses as an unsigned 32-bit integer,
the uid is used directly — the result does not depend on the user
directory; otherwise the key is resolved by name: no user with the name
aborts, two or more users sharing the name aborts, and a unique match
records the entry under that user's uid. -/
theorem key_resolution (users : UserMap) (st : ControlManager)
    (user : String) (v : TomlValue) (d : IncompleteControl)
    (hstar : user ≠ "*")
    (hdeser : deserIncompleteControl v = some d)
    (hval : ControlManager.validate d = true) :
    (∀ uid, parseUid user = some uid →
      (∀ users' : UserMap,
        processPair users' st user v = processPair users st user v) ∧
      processPair users st user v
        = some { st with users := updateUsers st.users uid d }) ∧
    (parseUid user = none →
      ((∀ u ∈ users, u.name ≠ user) → processPair users st user v = none) ∧
      (2 ≤ users.countP (fun u => u.name == user) →
        processPair users st user v = none) ∧
      (∀ u, UserMap.user_by_username users user = .found u →
        processPair users st user v
          = some { st with users := updateUsers st.users u.uid d })) := by
  have hpp : ∀ us : UserMap, processPair us st user v =
      match parseUid user with
      | some uid => some { st with users := updateUsers st.users uid d }
      | none =>
        match UserMap.user_by_username us user with
        | .ambiguous => none
        | .notFound => none
        | .found u => some { st with users := updateUsers st.users u.uid d } := by
    intro us
    unfold processPair
    rw [hdeser]
    simp only [hval, if_true, if_neg hstar]
  constructor
  · intro uid hp
    constructor
    · intro users'
      rw [hpp users', hpp users, hp]
    · rw [hpp users, hp]
  · intro hp
    refine ⟨?_, ?_, ?_⟩
    · intro h
      rw [hpp users, hp, user_by_username_notFound users user h]
    · intro h
      rw [hpp users, hp, user_by_username_ambiguous users user h]
    · intro u hu
      rw [hpp users, hp, hu]

/-- Witness for C9: the numeric key `"1000"` records an override under uid
1000 directly. -/
theorem key_resolution_witness :
    processPair [⟨1000, "alice"⟩]
      ⟨[], ⟨false, DEFAULT_USER_CONFIG, DEFAULT_AUTHORIZED_KEYS⟩⟩ "1000"
      (.table [("enable", .bool true)])
      = some ⟨[(1000, ⟨some true, none, none⟩)],
          ⟨false, DEFAULT_USER_CONFIG, DEFAULT_AUTHORIZED_KEYS⟩⟩ := by
  have h := (key_resolution [⟨1000, "alice"⟩]
    ⟨[], ⟨false, DEFAULT_USER_CONFIG, DEFAULT_AUTHORIZED_KEYS⟩⟩ "1000"
    (.table [("enable", .bool true)]) ⟨some true, none, none⟩
    (by decide) (by decide) (by decide)).1 1000 (by decide)
  rw [h.2]
  rfl

/-- The user directories of the uid-overflow scenario: one where no user is
named `4294967296`, one where a user with uid 7 carries that literal name. -/
def usersC10 : UserMap := [⟨0, "root"⟩, ⟨1000, "alice"⟩]

def usersC10' : UserMap := [⟨0, "root"⟩, ⟨7, "4294967296"⟩]

/-- C10: A digit-only top-level key above the uid range (`"4294967296"` >
`2^32 - 1`) fails the integer parse and is treated as a username: with no
user of that literal name `load` aborts (even though uid 0 exists, so no
wrap to `4294967296 mod 2^32 = 0` happens), while a user literally named
`4294967296` (uid 7) receives the override. -/
theorem overflow_uid_key_is_username :
    parseUid "4294967296" = none ∧
    parseUid "4294967295" = some 4294967295 ∧
    ControlManager.load
      (rootFS "etc/control.toml" 0o600 .notFound
        (fun _ => some [("4294967296", .table [("enable", .bool true)])]))
      usersC10 "etc/control.toml" = none ∧
    ControlManager.load
      (rootFS "etc/control.toml" 0o600 .notFound
        (fun _ => some [("4294967296", .table [("enable", .bool true)])]))
      usersC10' "etc/control.toml"
      = some ⟨[(7, ⟨some true, none, none⟩)],
          ⟨false, DEFAULT_USER_CONFIG, DEFAULT_AUTHORIZED_KEYS⟩⟩ := by
  exact ⟨by decide, by decide, by decide, by decide⟩

/-- C2 counterexample: a table value containing the unrecognized field
`frobnicate` deserializes successfully (the field is silently ignored), and
a control file whose `*` entry carries that field loads successfully — the
load does not abort with a schema error. -/
theorem unknown_field_load_succeeds :
    deserIncompleteControl
        (.table [("enable", .bool true), ("frobnicate", .str "x")])
      = some ⟨some true, none, none⟩ ∧
    ControlManager.load
      (rootFS "etc/control.toml" 0o600 .notFound
        (fun _ => some [("*",
          .table [("enable", .bool true), ("frobnicate", .str "x")])]))
      [] "etc/control.toml"
      = some ⟨[], ⟨true, DEFAULT_USER_CONFIG, DEFAULT_AUTHORIZED_KEYS⟩⟩ := by
  exact ⟨by decide, by decide⟩

/-- C2 (amended): each top-level table value is deserialized into a Partial
Override leniently with respect to field names — a field whose name is not
`enable`, `config` or `authorized_keys` is silently skipped (whatever its
value), not rejected as a schema error. -/
theorem unknown_fields_ignored (k : String) (v : TomlValue)
    (rest : List (String × TomlValue)) (acc : IncompleteControl)
    (h1 : k ≠ "enable") (h2 : k ≠ "config") (h3 : k ≠ "authorized_keys") :
    deserFields ((k, v) :: rest) acc = deserFields rest acc := by
  conv_lhs => unfold deserFields
  rw [if_neg h1, if_neg h2, if_neg h3]

/-- Witness for the amended C2: `frobnicate` is skipped. -/
theorem unknown_fields_ignored_witness :
    deserFields [("frobnicate", .str "x")] ⟨none, none, none⟩
      = deserFields [] ⟨none, none, none⟩ := by
  exact unknown_fields_ignored "frobnicate" (.str "x") [] ⟨none, none, none⟩
    (by decide) (by decide) (by decide)

end Narrowssh
